import Mathlib

/-!
# Extent repair and re-tokenization (`src/libclang/tokenizer.cpp`)

A shallow embedding of the tokenizer of cppast.  The parsing provider (libclang) is
outside the repository, so it enters as data:

* a source location of the file under consideration is identified with its numeric
  offset, an `unsigned` value (`clang_getSpellingLocation` reads the offset of a location,
  `clang_getLocationForOffset` builds the location of an offset);
* the range lexer `clang_tokenize` is the field `tokenize` of `CXTranslationUnit`;
* a cursor carries its kind, its template kind, its reported extent and its direct
  children.

The fatal assertion of `simple_tokenizer` and the unbounded probing loops are made
explicit in the result type `Outcome`.
-/

namespace Cppast

/-- The cursor kinds the tokenizer tells apart; all remaining kinds are `Other`. -/
inductive CXCursorKind where
  | FunctionDecl
  | CXXMethod
  | Constructor
  | Destructor
  | ConversionFunction
  | CompoundStmt
  | CXXTryStmt
  | InitListExpr
  | TemplateTypeParameter
  | NonTypeTemplateParameter
  | TemplateTemplateParameter
  | ParmDecl
  | TypeAliasDecl
  | Other (code : Nat)
  deriving DecidableEq, Repr

/-- Token kinds reported by `clang_getTokenKind`. -/
inductive CXTokenKind where
  | Punctuation
  | Keyword
  | Identifier
  | Literal
  | Comment
  deriving DecidableEq, Repr

/-- A raw provider token: what `clang_getTokenSpelling` and `clang_getTokenKind` read off it. -/
structure CXToken where
  spelling : String
  kind : CXTokenKind
  deriving DecidableEq, Repr

/-- The translation unit as far as the tokenizer uses it: `clang_tokenize` on the range
`(begin, end)` of the file, as the list of raw tokens it yields. -/
structure CXTranslationUnit where
  tokenize : Nat → Nat → List CXToken

/-- A cursor: `clang_getCursorKind`, `clang_getTemplateCursorKind`, the two ends of
`clang_getCursorExtent` and the direct children in visit order. -/
inductive CXCursor where
  | mk (kind templateKind : CXCursorKind) (extentStart extentEnd : Nat)
      (children : List CXCursor)

/-- Reading of `clang_getCursorKind`. -/
def CXCursor.kind : CXCursor → CXCursorKind
  | .mk k _ _ _ _ => k

/-- Reading of `clang_getTemplateCursorKind`. -/
def CXCursor.templateKind : CXCursor → CXCursorKind
  | .mk _ t _ _ _ => t

/-- Reading of `clang_getRangeStart (clang_getCursorExtent cur)`. -/
def CXCursor.extentStart : CXCursor → Nat
  | .mk _ _ b _ _ => b

/-- Reading of `clang_getRangeEnd (clang_getCursorExtent cur)`. -/
def CXCursor.extentEnd : CXCursor → Nat
  | .mk _ _ _ e _ => e

/-- The direct children of a cursor, in the order the provider visits them. -/
def CXCursor.children : CXCursor → List CXCursor
  | .mk _ _ _ _ cs => cs

/-- What a run of the code ends in: a returned value, the abort of `DEBUG_ASSERT`, or
the loop budget of the model being used up before the code returned. -/
inductive Outcome (α : Type) where
  | value (a : α)
  | assertion_failure
  | out_of_fuel
  deriving DecidableEq, Repr

/-- The answer of a visitor callback (`CXChildVisit_Break`, `CXChildVisit_Continue`). -/
inductive CXChildVisitResult where
  | Break
  | Continue
  deriving DecidableEq, Repr

/-- The owned token of `detail::token`: `value_` and `kind_`. -/
structure token where
  value_ : String
  kind_ : CXTokenKind
  deriving DecidableEq, Repr

/-- The constructor `detail::token::token`: copies spelling and kind out of the raw token. -/
def token.ofRaw (t : CXToken) : token :=
  { value_ := t.spelling, kind_ := t.kind }

/-- The function `cursor_is_function`. -/
def cursor_is_function (kind : CXCursorKind) : Bool :=
  kind == CXCursorKind.FunctionDecl || kind == CXCursorKind.CXXMethod
    || kind == CXCursorKind.Constructor || kind == CXCursorKind.Destructor
    || kind == CXCursorKind.ConversionFunction

/-- The function `get_next_location`: the offset of `loc` plus `inc`, computed in
`unsigned` arithmetic (modulo `2^32`). -/
def get_next_location (loc : Nat) (inc : Int := 1) : Nat :=
  (((loc : Int) + inc) % 4294967296).toNat

/-- The constructor of `simple_tokenizer`: lexes the range and asserts `no_ >= 1`. -/
def simple_tokenizer (tu : CXTranslationUnit) (range : Nat × Nat) : Outcome (List CXToken) :=
  let tokens_ := tu.tokenize range.1 range.2
  if tokens_.length ≥ 1 then Outcome.value tokens_ else Outcome.assertion_failure

/-- The function `token_after_is`: lexes `[loc, loc + 1)` and compares the spelling of the
first token. -/
def token_after_is (tu : CXTranslationUnit) (loc : Nat) (token_str : String) : Outcome Bool :=
  let loc_after := get_next_location loc
  match simple_tokenizer tu (loc, loc_after) with
  | Outcome.value tokenizer =>
    match tokenizer[0]? with
    | some t => Outcome.value (t.spelling == token_str)
    | none => Outcome.assertion_failure
  | Outcome.assertion_failure => Outcome.assertion_failure
  | Outcome.out_of_fuel => Outcome.out_of_fuel

/-- Modelled from the spec: `detail::visit_children` of `libclang_visitor.hpp`, which is
not among the sources.  It is the single-level traversal of the direct children in
order, the callback threading its captured state; the traversal stops at the first
`Break`. -/
def visit_children {σ : Type} (children : List CXCursor)
    (f : CXCursor → σ → σ × CXChildVisitResult) (s : σ) : σ :=
  match children with
  | [] => s
  | child :: rest =>
    match f child s with
    | (s1, CXChildVisitResult.Break) => s1
    | (s1, CXChildVisitResult.Continue) => visit_children rest f s1

/-- The callback `get_extent` hands to `visit_children`; its captured state is
`(end, range_shrunk)`. -/
def body_visitor (child : CXCursor) (s : Nat × Bool) : (Nat × Bool) × CXChildVisitResult :=
  if child.kind = CXCursorKind.CompoundStmt
      ∨ child.kind = CXCursorKind.CXXTryStmt
      ∨ child.kind = CXCursorKind.InitListExpr then
    ((child.extentStart, true), CXChildVisitResult.Break)
  else
    (s, CXChildVisitResult.Continue)

/-- The loop `do { end = get_next_location(end); } while (!token_after_is(end, ";"))`,
which `get_extent` runs for body-less functions and for type aliases.  `fuel` bounds the
number of iterations. -/
def advance_to_semicolon (tu : CXTranslationUnit) : Nat → Nat → Outcome Nat
  | 0, _ => Outcome.out_of_fuel
  | fuel + 1, end_ =>
    let end1 := get_next_location end_
    match token_after_is tu end1 ";" with
    | Outcome.value true => Outcome.value end1
    | Outcome.value false => advance_to_semicolon tu fuel end1
    | Outcome.assertion_failure => Outcome.assertion_failure
    | Outcome.out_of_fuel => Outcome.out_of_fuel

/-- The loop `for (paren_count = 1; paren_count != 0; next = get_next_location(next))`
of `get_extent`, from a state `(paren_count, next, prev)`; it yields the final `prev`.
`fuel` bounds the number of iterations.  The counter is an `int` of the source and an
integer here: it moves by one per offset, which keeps it inside the `int` range on files
shorter than `2^31`. -/
def match_parens (tu : CXTranslationUnit) : Nat → Int → Nat → Nat → Outcome Nat
  | 0, paren_count, _, prev =>
    if paren_count = 0 then Outcome.value prev else Outcome.out_of_fuel
  | fuel + 1, paren_count, next, prev =>
    if paren_count = 0 then Outcome.value prev
    else
      match token_after_is tu next "(" with
      | Outcome.value true =>
        match_parens tu fuel (paren_count + 1) (get_next_location next) next
      | Outcome.value false =>
        match token_after_is tu next ")" with
        | Outcome.value true =>
          match_parens tu fuel (paren_count - 1) (get_next_location next) next
        | Outcome.value false =>
          match_parens tu fuel paren_count (get_next_location next) next
        | Outcome.assertion_failure => Outcome.assertion_failure
        | Outcome.out_of_fuel => Outcome.out_of_fuel
      | Outcome.assertion_failure => Outcome.assertion_failure
      | Outcome.out_of_fuel => Outcome.out_of_fuel

/-- The function-like branch of `get_extent` (lines 89 to 116). -/
def get_extent_function (fuel : Nat) (tu : CXTranslationUnit) (cur : CXCursor)
    (begin end_ : Nat) : Outcome (Nat × Nat) :=
  match visit_children cur.children body_visitor (end_, false) with
  | (end1, true) =>
    if cur.kind = CXCursorKind.CXXMethod then
      Outcome.value (get_next_location begin (-1), end1)
    else Outcome.value (begin, end1)
  | (end1, false) =>
    match token_after_is tu end1 ";" with
    | Outcome.value false =>
      match advance_to_semicolon tu fuel end1 with
      | Outcome.value end2 => Outcome.value (begin, end2)
      | Outcome.assertion_failure => Outcome.assertion_failure
      | Outcome.out_of_fuel => Outcome.out_of_fuel
    | Outcome.value true =>
      if cur.kind = CXCursorKind.CXXMethod then
        Outcome.value (get_next_location begin (-1), end1)
      else Outcome.value (begin, end1)
    | Outcome.assertion_failure => Outcome.assertion_failure
    | Outcome.out_of_fuel => Outcome.out_of_fuel

/-- The function `get_extent`: the corrected range `(begin, end)` of a cursor. -/
def get_extent (fuel : Nat) (tu : CXTranslationUnit) (cur : CXCursor) : Outcome (Nat × Nat) :=
  let begin := cur.extentStart
  let end_ := cur.extentEnd
  if cursor_is_function cur.kind || cursor_is_function cur.templateKind then
    get_extent_function fuel tu cur begin end_
  else if cur.kind = CXCursorKind.TemplateTypeParameter
      ∨ cur.kind = CXCursorKind.NonTypeTemplateParameter
      ∨ cur.kind = CXCursorKind.TemplateTemplateParameter
      ∨ cur.kind = CXCursorKind.ParmDecl then
    if cur.kind = CXCursorKind.TemplateTypeParameter then
      match token_after_is tu end_ "(" with
      | Outcome.value true =>
        match match_parens tu fuel 1 (get_next_location end_) end_ with
        | Outcome.value prev => Outcome.value (begin, prev)
        | Outcome.assertion_failure => Outcome.assertion_failure
        | Outcome.out_of_fuel => Outcome.out_of_fuel
      | Outcome.value false => Outcome.value (begin, end_)
      | Outcome.assertion_failure => Outcome.assertion_failure
      | Outcome.out_of_fuel => Outcome.out_of_fuel
    else Outcome.value (begin, end_)
  else if cur.kind = CXCursorKind.TypeAliasDecl then
    match token_after_is tu end_ ";" with
    | Outcome.value false =>
      match advance_to_semicolon tu fuel end_ with
      | Outcome.value end1 => Outcome.value (begin, get_next_location end1)
      | Outcome.assertion_failure => Outcome.assertion_failure
      | Outcome.out_of_fuel => Outcome.out_of_fuel
    | Outcome.value true => Outcome.value (begin, end_)
    | Outcome.assertion_failure => Outcome.assertion_failure
    | Outcome.out_of_fuel => Outcome.out_of_fuel
  else Outcome.value (begin, end_)

/-- The loop `for (i = 0u; i != tokenizer.size(); ++i) tokens_.emplace_back(tu, tokenizer[i])`
of the entity tokenizer, from index `i` with `tokens_` built so far.  The index starts
at `0` and moves by one, so `i != size` is `i < size` at every iteration. -/
def emplace_tokens (raw : List CXToken) (i : Nat) (tokens_ : List token) : List token :=
  if h : i < raw.length then
    emplace_tokens raw (i + 1) (tokens_ ++ [token.ofRaw (raw.get ⟨i, h⟩)])
  else tokens_
termination_by raw.length - i

/-- The constructor `detail::tokenizer::tokenizer`: the token sequence of a cursor. -/
def tokenizer (fuel : Nat) (tu : CXTranslationUnit) (cur : CXCursor) : Outcome (List token) :=
  match get_extent fuel tu cur with
  | Outcome.value extent =>
    match simple_tokenizer tu extent with
    | Outcome.value raw => Outcome.value (emplace_tokens raw 0 [])
    | Outcome.assertion_failure => Outcome.assertion_failure
    | Outcome.out_of_fuel => Outcome.out_of_fuel
  | Outcome.assertion_failure => Outcome.assertion_failure
  | Outcome.out_of_fuel => Outcome.out_of_fuel

/-- The three child kinds that end the signature of a function: a body, a try block, an
initializer list. -/
def is_body_kind (k : CXCursorKind) : Bool :=
  k == CXCursorKind.CompoundStmt || k == CXCursorKind.CXXTryStmt
    || k == CXCursorKind.InitListExpr

/-- The first direct child, in visit order, that is a body, a try block or an
initializer list. -/
def first_body_child (cur : CXCursor) : Option CXCursor :=
  cur.children.find? (fun c => is_body_kind c.kind)

/-- A cursor is function-like when its kind or its template kind is one of the five
function kinds. -/
def function_like (cur : CXCursor) : Prop :=
  cursor_is_function cur.kind = true ∨ cursor_is_function cur.templateKind = true

instance (cur : CXCursor) : Decidable (function_like cur) := by
  unfold function_like
  infer_instance

/-- A sample provider: probes of a file whose offsets 10, 11, 12 are followed by the
tokens `a`, `b` and `;` and whose remaining offsets lex to nothing; the range from 3 to
20 lexes to `int f ( )`. -/
def sampleTU : CXTranslationUnit :=
  { tokenize := fun b e =>
      if b = 3 ∧ e = 20 then
        [⟨"int", CXTokenKind.Keyword⟩, ⟨"f", CXTokenKind.Identifier⟩,
         ⟨"(", CXTokenKind.Punctuation⟩, ⟨")", CXTokenKind.Punctuation⟩]
      else if b = 10 then [⟨"a", CXTokenKind.Identifier⟩]
      else if b = 11 then [⟨"b", CXTokenKind.Identifier⟩]
      else if b = 12 then [⟨";", CXTokenKind.Punctuation⟩]
      else [] }

/-- A compound statement whose extent starts at offset 20. -/
def sampleBody : CXCursor :=
  CXCursor.mk CXCursorKind.CompoundStmt (CXCursorKind.Other 0) 20 40 []

/-- A parameter declaration, not a body. -/
def sampleParm : CXCursor :=
  CXCursor.mk CXCursorKind.ParmDecl (CXCursorKind.Other 0) 7 9 []

/-- A later initializer list, starting at offset 30. -/
def sampleInit : CXCursor :=
  CXCursor.mk CXCursorKind.InitListExpr (CXCursorKind.Other 0) 30 35 []

/-- A function definition: a parameter, then the body, then one more matching child. -/
def sampleFunctionDef : CXCursor :=
  CXCursor.mk CXCursorKind.FunctionDecl (CXCursorKind.Other 0) 3 40
    [sampleParm, sampleBody, sampleInit]

/-- A method definition with the same children. -/
def sampleMethodDef : CXCursor :=
  CXCursor.mk CXCursorKind.CXXMethod (CXCursorKind.Other 0) 3 40
    [sampleParm, sampleBody, sampleInit]

/-- A method prototype whose reported end, offset 12, is followed by `;`. -/
def sampleMethodProto : CXCursor :=
  CXCursor.mk CXCursorKind.CXXMethod (CXCursorKind.Other 0) 3 12 [sampleParm]

/-- A method declaration whose reported end, offset 10, stops two units short of the
position followed by `;`. -/
def sampleMethodShort : CXCursor :=
  CXCursor.mk CXCursorKind.CXXMethod (CXCursorKind.Other 0) 3 10 [sampleParm]

/-- A function prototype whose reported end is followed by `;`. -/
def sampleFunctionProto : CXCursor :=
  CXCursor.mk CXCursorKind.FunctionDecl (CXCursorKind.Other 0) 3 12 [sampleParm]

/-- A type alias whose reported end, offset 10, stops short of the terminator. -/
def sampleAliasShort : CXCursor :=
  CXCursor.mk CXCursorKind.TypeAliasDecl (CXCursorKind.Other 0) 3 10 []

/-- A type alias whose reported end, offset 12, is followed by `;`. -/
def sampleAliasDone : CXCursor :=
  CXCursor.mk CXCursorKind.TypeAliasDecl (CXCursorKind.Other 0) 3 12 []

/-- A second sample provider: probes of a file in which the offsets 5 to 11 are followed
by the tokens `(`, `f`, `(`, `0`, `)`, `)` and `>`, the tail of
`template <class T = decltype(f(0))>`, and whose offset 12 is the end of the file. -/
def parenTU : CXTranslationUnit :=
  { tokenize := fun b _ =>
      if b = 5 then [⟨"(", CXTokenKind.Punctuation⟩]
      else if b = 6 then [⟨"f", CXTokenKind.Identifier⟩]
      else if b = 7 then [⟨"(", CXTokenKind.Punctuation⟩]
      else if b = 8 then [⟨"0", CXTokenKind.Literal⟩]
      else if b = 9 then [⟨")", CXTokenKind.Punctuation⟩]
      else if b = 10 then [⟨")", CXTokenKind.Punctuation⟩]
      else if b = 11 then [⟨">", CXTokenKind.Punctuation⟩]
      else [] }

/-- A template type parameter whose reported end, offset 5, is followed by `(`. -/
def sampleTypeParam : CXCursor :=
  CXCursor.mk CXCursorKind.TemplateTypeParameter (CXCursorKind.Other 0) 1 5 []

/-- A template type parameter whose reported end, offset 11, is followed by `>`. -/
def sampleTypeParamPlain : CXCursor :=
  CXCursor.mk CXCursorKind.TemplateTypeParameter (CXCursorKind.Other 0) 1 11 []

/-- A function parameter whose reported end, offset 5, is followed by `(`. -/
def sampleParmBeforeParen : CXCursor :=
  CXCursor.mk CXCursorKind.ParmDecl (CXCursorKind.Other 0) 1 5 []

/-- A non-type template parameter whose reported end, offset 5, is followed by `(`. -/
def sampleNonTypeParam : CXCursor :=
  CXCursor.mk CXCursorKind.NonTypeTemplateParameter (CXCursorKind.Other 0) 1 5 []

/-- A template-template parameter whose reported end, offset 5, is followed by `(`. -/
def sampleTemplateTemplateParam : CXCursor :=
  CXCursor.mk CXCursorKind.TemplateTemplateParameter (CXCursorKind.Other 0) 1 5 []

/-- A type alias in the second sample file, where no offset is followed by `;`. -/
def sampleAliasUnterminated : CXCursor :=
  CXCursor.mk CXCursorKind.TypeAliasDecl (CXCursorKind.Other 0) 1 5 []

/-- A provider without an end: every range lexes to the single identifier `x`. -/
def endlessTU : CXTranslationUnit :=
  { tokenize := fun _ _ => [⟨"x", CXTokenKind.Identifier⟩] }

/-- A function declaration without children, reported to end at offset 0. -/
def sampleBareFunction : CXCursor :=
  CXCursor.mk CXCursorKind.FunctionDecl (CXCursorKind.Other 0) 0 0 []

/-- A provider whose file stops inside an open parenthesis: offset 5 is followed by `(`,
offset 6 by `f`, and nothing is lexed anywhere else. -/
def openTU : CXTranslationUnit :=
  { tokenize := fun b _ =>
      if b = 5 then [⟨"(", CXTokenKind.Punctuation⟩]
      else if b = 6 then [⟨"f", CXTokenKind.Identifier⟩]
      else [] }

/-- A function declaration of the first sample file whose reported end, offset 13, is
the end of the file. -/
def sampleFunctionAtEnd : CXCursor :=
  CXCursor.mk CXCursorKind.FunctionDecl (CXCursorKind.Other 0) 3 13 [sampleParm]

/-- The offset the scans of `get_extent` reach after `k` one-unit steps from `e`. -/
def probe_offset (e : Nat) : Nat → Nat
  | 0 => e
  | k + 1 => get_next_location (probe_offset e k)

/-- The cursors on which `get_extent` probes for `;`: function-like cursors without a
body, try-block or initializer-list child, and type aliases that are not
function-like. -/
def scans_for_semicolon (cur : CXCursor) : Prop :=
  (function_like cur ∧ first_body_child cur = none)
    ∨ (¬ function_like cur ∧ cur.kind = CXCursorKind.TypeAliasDecl)

/-- The cursors on which `get_extent` makes a probe at the reported end: those that are
scanned for `;` and template type parameters that are not function-like. -/
def probes_reported_end (cur : CXCursor) : Prop :=
  scans_for_semicolon cur
    ∨ (¬ function_like cur ∧ cur.kind = CXCursorKind.TemplateTypeParameter)

/-- Whether the probe at offset `p` returns and reads the token `s`. -/
def followed_by (tu : CXTranslationUnit) (p : Nat) (s : String) : Bool :=
  decide (token_after_is tu p s = Outcome.value true)

/-- The parenthesis depth of the claim about template type parameters: 1 at the
reported end `e` (and before it) and, at an offset `p > e`, the depth at `p - 1` plus
one if `p` is followed by `(`, minus one if it is followed by `)`, unchanged
otherwise. -/
def paren_depth (tu : CXTranslationUnit) (e : Nat) : Nat → Int
  | 0 => 1
  | p + 1 =>
    if p + 1 ≤ e then 1
    else if followed_by tu (p + 1) "(" then paren_depth tu e p + 1
    else if followed_by tu (p + 1) ")" then paren_depth tu e p - 1
    else paren_depth tu e p

/-! ## Location arithmetic -/

theorem get_next_location_succ (p : Nat) (h : p + 1 < 4294967296) :
    get_next_location p = p + 1 := by
  unfold get_next_location
  omega

theorem get_next_location_pred (p : Nat) (h1 : 1 ≤ p) (h : p < 4294967296) :
    get_next_location p (-1) = p - 1 := by
  unfold get_next_location
  omega

/-! ## The child scan -/

theorem visit_children_body (cs : List CXCursor) (e : Nat) :
    visit_children cs body_visitor (e, false)
      = match cs.find? (fun c => is_body_kind c.kind) with
        | some c => (c.extentStart, true)
        | none => (e, false) := by
  induction cs with
  | nil => simp [visit_children]
  | cons c rest ih =>
    by_cases hk : is_body_kind c.kind = true
    · have hk2 : c.kind = CXCursorKind.CompoundStmt ∨ c.kind = CXCursorKind.CXXTryStmt
          ∨ c.kind = CXCursorKind.InitListExpr := by
        simpa [is_body_kind, or_assoc] using hk
      simp [visit_children, body_visitor, hk, hk2]
    · have hk2 : ¬ (c.kind = CXCursorKind.CompoundStmt ∨ c.kind = CXCursorKind.CXXTryStmt
          ∨ c.kind = CXCursorKind.InitListExpr) := by
        simpa [is_body_kind, or_assoc] using hk
      simp [visit_children, body_visitor, hk, hk2, ih]

theorem get_extent_of_function_like (fuel : Nat) (tu : CXTranslationUnit) (cur : CXCursor)
    (hf : function_like cur) :
    get_extent fuel tu cur
      = get_extent_function fuel tu cur cur.extentStart cur.extentEnd := by
  have h : (cursor_is_function cur.kind || cursor_is_function cur.templateKind) = true := by
    rcases hf with h | h <;> simp [h]
  simp [get_extent, h]

theorem get_extent_function_shrunk (fuel : Nat) (tu : CXTranslationUnit) (cur child : CXCursor)
    (b e : Nat) (hc : first_body_child cur = some child) :
    get_extent_function fuel tu cur b e
      = if cur.kind = CXCursorKind.CXXMethod then
          Outcome.value (get_next_location b (-1), child.extentStart)
        else Outcome.value (b, child.extentStart) := by
  unfold first_body_child at hc
  simp [get_extent_function, visit_children_body, hc]

theorem get_extent_function_plain (fuel : Nat) (tu : CXTranslationUnit) (cur : CXCursor)
    (b e : Nat) (hc : first_body_child cur = none) :
    get_extent_function fuel tu cur b e
      = match token_after_is tu e ";" with
        | Outcome.value false =>
          match advance_to_semicolon tu fuel e with
          | Outcome.value end2 => Outcome.value (b, end2)
          | Outcome.assertion_failure => Outcome.assertion_failure
          | Outcome.out_of_fuel => Outcome.out_of_fuel
        | Outcome.value true =>
          if cur.kind = CXCursorKind.CXXMethod then
            Outcome.value (get_next_location b (-1), e)
          else Outcome.value (b, e)
        | Outcome.assertion_failure => Outcome.assertion_failure
        | Outcome.out_of_fuel => Outcome.out_of_fuel := by
  unfold first_body_child at hc
  simp [get_extent_function, visit_children_body, hc]

theorem get_extent_type_alias (fuel : Nat) (tu : CXTranslationUnit) (cur : CXCursor)
    (hk : cur.kind = CXCursorKind.TypeAliasDecl) (hnf : ¬ function_like cur) :
    get_extent fuel tu cur
      = match token_after_is tu cur.extentEnd ";" with
        | Outcome.value false =>
          match advance_to_semicolon tu fuel cur.extentEnd with
          | Outcome.value end1 => Outcome.value (cur.extentStart, get_next_location end1)
          | Outcome.assertion_failure => Outcome.assertion_failure
          | Outcome.out_of_fuel => Outcome.out_of_fuel
        | Outcome.value true => Outcome.value (cur.extentStart, cur.extentEnd)
        | Outcome.assertion_failure => Outcome.assertion_failure
        | Outcome.out_of_fuel => Outcome.out_of_fuel := by
  have h2 : cursor_is_function cur.templateKind = false := by
    unfold function_like at hnf
    cases h : cursor_is_function cur.templateKind
    · rfl
    · exact absurd (Or.inr h) hnf
  have h1 : cursor_is_function CXCursorKind.TypeAliasDecl = false := rfl
  simp [get_extent, h1, h2, hk]

theorem not_function_like_iff (cur : CXCursor) :
    ¬ function_like cur
      ↔ cursor_is_function cur.kind = false ∧ cursor_is_function cur.templateKind = false := by
  unfold function_like
  cases cursor_is_function cur.kind <;> cases cursor_is_function cur.templateKind <;> simp

theorem get_extent_other (fuel : Nat) (tu : CXTranslationUnit) (cur : CXCursor)
    (hnf : ¬ function_like cur) (hna : cur.kind ≠ CXCursorKind.TypeAliasDecl)
    (hnt : cur.kind ≠ CXCursorKind.TemplateTypeParameter) :
    get_extent fuel tu cur = Outcome.value (cur.extentStart, cur.extentEnd) := by
  obtain ⟨h1, h2⟩ := (not_function_like_iff cur).1 hnf
  unfold get_extent
  simp only [h1, h2, Bool.or_self, Bool.false_eq_true, if_false, hnt, false_or, hna]
  split <;> rfl

theorem get_extent_type_param (fuel : Nat) (tu : CXTranslationUnit) (cur : CXCursor)
    (hnf : ¬ function_like cur) (hk : cur.kind = CXCursorKind.TemplateTypeParameter) :
    get_extent fuel tu cur
      = match token_after_is tu cur.extentEnd "(" with
        | Outcome.value true =>
          match match_parens tu fuel 1 (get_next_location cur.extentEnd) cur.extentEnd with
          | Outcome.value prev => Outcome.value (cur.extentStart, prev)
          | Outcome.assertion_failure => Outcome.assertion_failure
          | Outcome.out_of_fuel => Outcome.out_of_fuel
        | Outcome.value false => Outcome.value (cur.extentStart, cur.extentEnd)
        | Outcome.assertion_failure => Outcome.assertion_failure
        | Outcome.out_of_fuel => Outcome.out_of_fuel := by
  obtain ⟨_, h2⟩ := (not_function_like_iff cur).1 hnf
  have h1 : cursor_is_function CXCursorKind.TemplateTypeParameter = false := rfl
  simp [get_extent, h1, h2, hk]

/-! ## The scan for the semicolon -/

theorem advance_to_semicolon_finds (tu : CXTranslationUnit) :
    ∀ (n e fuel : Nat), e + n + 1 < 4294967296 →
      (∀ p, e < p → p < e + n + 1 → token_after_is tu p ";" = Outcome.value false) →
      token_after_is tu (e + n + 1) ";" = Outcome.value true →
      n + 1 ≤ fuel →
      advance_to_semicolon tu fuel e = Outcome.value (e + n + 1) := by
  intro n
  induction n with
  | zero =>
    intro e fuel hlt _ hfound hfuel
    obtain ⟨f, rfl⟩ : ∃ f, fuel = f + 1 := ⟨fuel - 1, by omega⟩
    have hstep : get_next_location e = e + 1 := get_next_location_succ e (by omega)
    simp only [advance_to_semicolon, hstep]
    simp only [Nat.add_zero] at hfound
    rw [hfound]
  | succ n ih =>
    intro e fuel hlt hnot hfound hfuel
    obtain ⟨f, rfl⟩ : ∃ f, fuel = f + 1 := ⟨fuel - 1, by omega⟩
    have hstep : get_next_location e = e + 1 := get_next_location_succ e (by omega)
    have hfirst : token_after_is tu (e + 1) ";" = Outcome.value false :=
      hnot (e + 1) (by omega) (by omega)
    have hrec := ih (e + 1) f (by omega)
      (fun p hp1 hp2 => hnot p (by omega) (by omega))
      (by rw [show e + 1 + n + 1 = e + (n + 1) + 1 by omega]; exact hfound) (by omega)
    simp only [advance_to_semicolon, hstep, hfirst, hrec]
    exact congrArg Outcome.value (by omega)

theorem advance_to_semicolon_least (tu : CXTranslationUnit) (e e1 fuel : Nat)
    (hlt : e < e1) (h32 : e1 < 4294967296)
    (hfound : token_after_is tu e1 ";" = Outcome.value true)
    (hnot : ∀ p, e ≤ p → p < e1 → token_after_is tu p ";" = Outcome.value false)
    (hfuel : e1 - e ≤ fuel) :
    advance_to_semicolon tu fuel e = Outcome.value e1 := by
  have h := advance_to_semicolon_finds tu (e1 - e - 1) e fuel (by omega)
    (fun p hp1 hp2 => hnot p (by omega) (by omega))
    (by rw [show e + (e1 - e - 1) + 1 = e1 by omega]; exact hfound) (by omega)
  rw [h]
  congr 1
  omega

/-! ## The token loop and the assertion -/

theorem emplace_tokens_eq (raw : List CXToken) :
    ∀ (n i : Nat) (acc : List token), raw.length - i = n →
      emplace_tokens raw i acc = acc ++ (raw.drop i).map token.ofRaw := by
  intro n
  induction n with
  | zero =>
    intro i acc h
    have hi : ¬ i < raw.length := by omega
    rw [emplace_tokens, dif_neg hi, List.drop_eq_nil_of_le (by omega)]
    simp
  | succ n ih =>
    intro i acc h
    have hi : i < raw.length := by omega
    rw [emplace_tokens, dif_pos hi, ih (i + 1) _ (by omega)]
    have hdrop : raw.drop i = raw[i] :: raw.drop (i + 1) := List.drop_eq_getElem_cons hi
    rw [hdrop, List.map_cons, List.append_assoc]
    rfl

theorem emplace_tokens_map (raw : List CXToken) :
    emplace_tokens raw 0 [] = raw.map token.ofRaw := by
  rw [emplace_tokens_eq raw raw.length 0 [] rfl]
  simp

theorem simple_tokenizer_fails_iff (tu : CXTranslationUnit) (range : Nat × Nat) :
    simple_tokenizer tu range = Outcome.assertion_failure
      ↔ tu.tokenize range.1 range.2 = [] := by
  unfold simple_tokenizer
  cases h : tu.tokenize range.1 range.2 with
  | nil => simp
  | cons t ts => simp

theorem simple_tokenizer_of_ne_nil (tu : CXTranslationUnit) (range : Nat × Nat)
    (h : tu.tokenize range.1 range.2 ≠ []) :
    simple_tokenizer tu range = Outcome.value (tu.tokenize range.1 range.2) := by
  unfold simple_tokenizer
  cases h2 : tu.tokenize range.1 range.2 with
  | nil => exact absurd h2 h
  | cons t ts => simp

theorem simple_tokenizer_cases (tu : CXTranslationUnit) (range : Nat × Nat) :
    (tu.tokenize range.1 range.2 = [] ∧ simple_tokenizer tu range = Outcome.assertion_failure)
    ∨ (tu.tokenize range.1 range.2 ≠ []
        ∧ simple_tokenizer tu range = Outcome.value (tu.tokenize range.1 range.2)) := by
  by_cases h : tu.tokenize range.1 range.2 = []
  · exact Or.inl ⟨h, (simple_tokenizer_fails_iff tu range).2 h⟩
  · exact Or.inr ⟨h, simple_tokenizer_of_ne_nil tu range h⟩

/-- A probe either aborts, exactly when its one-unit range lexes to nothing, or yields a
truth value. -/
theorem token_after_is_cases (tu : CXTranslationUnit) (loc : Nat) (s : String) :
    (tu.tokenize loc (get_next_location loc) = []
        ∧ token_after_is tu loc s = Outcome.assertion_failure)
    ∨ (tu.tokenize loc (get_next_location loc) ≠ []
        ∧ ∃ b, token_after_is tu loc s = Outcome.value b) := by
  unfold token_after_is
  rcases simple_tokenizer_cases tu (loc, get_next_location loc) with ⟨h1, h2⟩ | ⟨h1, h2⟩
  · left
    refine ⟨h1, ?_⟩
    simp only [h2]
  · right
    refine ⟨h1, ?_⟩
    simp only [h2]
    cases h3 : tu.tokenize loc (get_next_location loc) with
    | nil => exact absurd h3 h1
    | cons t ts => exact ⟨t.spelling == s, by simp⟩

theorem token_after_is_ne_out_of_fuel (tu : CXTranslationUnit) (loc : Nat) (s : String) :
    token_after_is tu loc s ≠ Outcome.out_of_fuel := by
  rcases token_after_is_cases tu loc s with ⟨_, h⟩ | ⟨_, b, h⟩ <;> rw [h] <;> simp

theorem probe_offset_shift (e : Nat) :
    ∀ k, probe_offset (get_next_location e) k = probe_offset e (k + 1) := by
  intro k
  induction k with
  | zero => rfl
  | succ k ih =>
    show get_next_location (probe_offset (get_next_location e) k) = _
    rw [ih]
    rfl

theorem token_after_is_of_nil (tu : CXTranslationUnit) (loc : Nat) (s : String)
    (h : tu.tokenize loc (get_next_location loc) = []) :
    token_after_is tu loc s = Outcome.assertion_failure := by
  rcases token_after_is_cases tu loc s with ⟨_, h2⟩ | ⟨h2, _⟩
  · exact h2
  · exact absurd h h2

/-- An abort of the scan for `;` comes from a probe of the scan: one of the offsets
reached from `e` in 1 to `fuel` steps lexes to nothing. -/
theorem advance_to_semicolon_abort (tu : CXTranslationUnit) :
    ∀ (fuel e : Nat), advance_to_semicolon tu fuel e = Outcome.assertion_failure →
      ∃ k, 1 ≤ k ∧ k ≤ fuel
        ∧ tu.tokenize (probe_offset e k) (get_next_location (probe_offset e k)) = [] := by
  intro fuel
  induction fuel with
  | zero => intro e h; simp [advance_to_semicolon] at h
  | succ f ih =>
    intro e h
    rcases token_after_is_cases tu (get_next_location e) ";" with ⟨h1, _⟩ | ⟨_, b, h2⟩
    · exact ⟨1, Nat.le_refl _, by omega, h1⟩
    · simp only [advance_to_semicolon, h2] at h
      cases b with
      | true => simp at h
      | false =>
        obtain ⟨k, hk1, hk2, hk3⟩ := ih _ h
        rw [probe_offset_shift] at hk3
        exact ⟨k + 1, by omega, by omega, hk3⟩

/-- An abort of the parenthesis scan comes from a probe of the scan: one of the offsets
reached from `next` in fewer than `fuel` steps lexes to nothing. -/
theorem match_parens_abort (tu : CXTranslationUnit) :
    ∀ (fuel : Nat) (c : Int) (next prev : Nat),
      match_parens tu fuel c next prev = Outcome.assertion_failure →
      ∃ k, k < fuel
        ∧ tu.tokenize (probe_offset next k) (get_next_location (probe_offset next k)) = [] := by
  intro fuel
  induction fuel with
  | zero =>
    intro c next prev h
    by_cases hc : c = 0 <;> simp [match_parens, hc] at h
  | succ f ih =>
    intro c next prev h
    by_cases hc : c = 0
    · simp [match_parens, hc] at h
    · rcases token_after_is_cases tu next "(" with ⟨h1, _⟩ | ⟨_, b1, h2⟩
      · exact ⟨0, by omega, h1⟩
      · rcases token_after_is_cases tu next ")" with ⟨h1, _⟩ | ⟨_, b2, h3⟩
        · exact ⟨0, by omega, h1⟩
        · simp only [match_parens, hc, if_false, h2, h3] at h
          have hrec : ∃ c1, match_parens tu f c1 (get_next_location next) next
              = Outcome.assertion_failure := by
            cases b1 <;> cases b2 <;> exact ⟨_, h⟩
          obtain ⟨c1, hc1⟩ := hrec
          obtain ⟨k, hk1, hk2⟩ := ih _ _ _ hc1
          rw [probe_offset_shift] at hk2
          exact ⟨k + 1, by omega, hk2⟩

/-- An abort of `get_extent` comes from one of its probes: an offset reached from the
reported end in at most `fuel` one-unit steps lexes to nothing. -/
theorem get_extent_abort (fuel : Nat) (tu : CXTranslationUnit) (cur : CXCursor)
    (h : get_extent fuel tu cur = Outcome.assertion_failure) :
    probes_reported_end cur
    ∧ ∃ k, k ≤ fuel
        ∧ tu.tokenize (probe_offset cur.extentEnd k)
            (get_next_location (probe_offset cur.extentEnd k)) = [] := by
  by_cases hf : function_like cur
  · rw [get_extent_of_function_like fuel tu cur hf] at h
    cases hc : first_body_child cur with
    | some child =>
      rw [get_extent_function_shrunk fuel tu cur child _ _ hc] at h
      by_cases hm : cur.kind = CXCursorKind.CXXMethod <;> simp [hm] at h
    | none =>
      refine ⟨Or.inl (Or.inl ⟨hf, hc⟩), ?_⟩
      rw [get_extent_function_plain fuel tu cur _ _ hc] at h
      rcases token_after_is_cases tu cur.extentEnd ";" with ⟨h1, _⟩ | ⟨_, b, h2⟩
      · exact ⟨0, Nat.zero_le _, h1⟩
      · rw [h2] at h
        cases b with
        | true => by_cases hm : cur.kind = CXCursorKind.CXXMethod <;> simp [hm] at h
        | false =>
          cases hadv : advance_to_semicolon tu fuel cur.extentEnd with
          | value e2 => simp [hadv] at h
          | assertion_failure =>
            obtain ⟨k, _, hk2, hk3⟩ := advance_to_semicolon_abort tu _ _ hadv
            exact ⟨k, hk2, hk3⟩
          | out_of_fuel => simp [hadv] at h
  · by_cases hk : cur.kind = CXCursorKind.TemplateTypeParameter
    · refine ⟨Or.inr ⟨hf, hk⟩, ?_⟩
      rw [get_extent_type_param fuel tu cur hf hk] at h
      rcases token_after_is_cases tu cur.extentEnd "(" with ⟨h1, _⟩ | ⟨_, b, h2⟩
      · exact ⟨0, Nat.zero_le _, h1⟩
      · rw [h2] at h
        cases b with
        | false => simp at h
        | true =>
          cases hp : match_parens tu fuel 1 (get_next_location cur.extentEnd) cur.extentEnd with
          | value e2 => simp [hp] at h
          | assertion_failure =>
            obtain ⟨k, hk1, hk2⟩ := match_parens_abort tu _ _ _ _ hp
            rw [probe_offset_shift] at hk2
            exact ⟨k + 1, by omega, hk2⟩
          | out_of_fuel => simp [hp] at h
    · by_cases ha : cur.kind = CXCursorKind.TypeAliasDecl
      · refine ⟨Or.inl (Or.inr ⟨hf, ha⟩), ?_⟩
        rw [get_extent_type_alias fuel tu cur ha hf] at h
        rcases token_after_is_cases tu cur.extentEnd ";" with ⟨h1, _⟩ | ⟨_, b, h2⟩
        · exact ⟨0, Nat.zero_le _, h1⟩
        · rw [h2] at h
          cases b with
          | true => simp at h
          | false =>
            cases hadv : advance_to_semicolon tu fuel cur.extentEnd with
            | value e2 => simp [hadv] at h
            | assertion_failure =>
              obtain ⟨k, _, hk2, hk3⟩ := advance_to_semicolon_abort tu _ _ hadv
              exact ⟨k, hk2, hk3⟩
            | out_of_fuel => simp [hadv] at h
      · rw [get_extent_other fuel tu cur hf ha hk] at h
        simp at h

/-- The scan for `;` aborts at the first probe that lexes to nothing: when the offsets
before `e + n + 1` are followed by tokens other than `;` and the probe at `e + n + 1`
lexes to nothing. -/
theorem advance_to_semicolon_aborts (tu : CXTranslationUnit) :
    ∀ (n e fuel : Nat), e + n + 1 < 4294967296 →
      (∀ p, e < p → p < e + n + 1 → token_after_is tu p ";" = Outcome.value false) →
      tu.tokenize (e + n + 1) (get_next_location (e + n + 1)) = [] →
      n + 1 ≤ fuel →
      advance_to_semicolon tu fuel e = Outcome.assertion_failure := by
  intro n
  induction n with
  | zero =>
    intro e fuel hlt _ hnil hfuel
    obtain ⟨f, rfl⟩ : ∃ f, fuel = f + 1 := ⟨fuel - 1, by omega⟩
    have hstep : get_next_location e = e + 1 := get_next_location_succ e (by omega)
    simp only [Nat.add_zero] at hnil
    simp only [advance_to_semicolon, hstep, token_after_is_of_nil tu (e + 1) ";" hnil]
  | succ n ih =>
    intro e fuel hlt hnot hnil hfuel
    obtain ⟨f, rfl⟩ : ∃ f, fuel = f + 1 := ⟨fuel - 1, by omega⟩
    have hstep : get_next_location e = e + 1 := get_next_location_succ e (by omega)
    have hfirst : token_after_is tu (e + 1) ";" = Outcome.value false :=
      hnot (e + 1) (by omega) (by omega)
    have hrec := ih (e + 1) f (by omega)
      (fun p hp1 hp2 => hnot p (by omega) (by omega))
      (by rw [show e + 1 + n + 1 = e + (n + 1) + 1 by omega]; exact hnil) (by omega)
    simp only [advance_to_semicolon, hstep, hfirst, hrec]

theorem get_extent_first_probe_aborts (fuel : Nat) (tu : CXTranslationUnit) (cur : CXCursor)
    (hp : probes_reported_end cur)
    (hnil : tu.tokenize cur.extentEnd (get_next_location cur.extentEnd) = []) :
    get_extent fuel tu cur = Outcome.assertion_failure := by
  rcases hp with (⟨hf, hc⟩ | ⟨hf, ha⟩) | ⟨hf, hk⟩
  · rw [get_extent_of_function_like fuel tu cur hf,
      get_extent_function_plain fuel tu cur _ _ hc,
      token_after_is_of_nil tu cur.extentEnd ";" hnil]
  · rw [get_extent_type_alias fuel tu cur ha hf,
      token_after_is_of_nil tu cur.extentEnd ";" hnil]
  · rw [get_extent_type_param fuel tu cur hf hk,
      token_after_is_of_nil tu cur.extentEnd "(" hnil]

theorem get_extent_semicolon_scan_aborts (fuel : Nat) (tu : CXTranslationUnit)
    (cur : CXCursor) (q : Nat) (hs : scans_for_semicolon cur)
    (hlt : cur.extentEnd < q) (h32 : q < 4294967296)
    (hnot : ∀ p, cur.extentEnd ≤ p → p < q → token_after_is tu p ";" = Outcome.value false)
    (hnil : tu.tokenize q (get_next_location q) = [])
    (hfuel : q - cur.extentEnd ≤ fuel) :
    get_extent fuel tu cur = Outcome.assertion_failure := by
  have hadv : advance_to_semicolon tu fuel cur.extentEnd = Outcome.assertion_failure :=
    advance_to_semicolon_aborts tu (q - cur.extentEnd - 1) cur.extentEnd fuel (by omega)
      (fun p hp1 hp2 => hnot p (by omega) (by omega))
      (by rw [show cur.extentEnd + (q - cur.extentEnd - 1) + 1 = q by omega]; exact hnil)
      (by omega)
  have h0 := hnot cur.extentEnd (Nat.le_refl _) hlt
  rcases hs with ⟨hf, hc⟩ | ⟨hf, ha⟩
  · rw [get_extent_of_function_like fuel tu cur hf,
      get_extent_function_plain fuel tu cur _ _ hc, h0]
    simp only [hadv]
  · rw [get_extent_type_alias fuel tu cur ha hf, h0]
    simp only [hadv]

theorem tokenizer_of_get_extent_abort (fuel : Nat) (tu : CXTranslationUnit) (cur : CXCursor)
    (h : get_extent fuel tu cur = Outcome.assertion_failure) :
    tokenizer fuel tu cur = Outcome.assertion_failure := by
  simp only [tokenizer, h]

/-! ## The parenthesis scan -/

theorem followed_by_iff (tu : CXTranslationUnit) (p : Nat) (s : String) :
    followed_by tu p s = true ↔ token_after_is tu p s = Outcome.value true := by
  simp [followed_by]

theorem paren_depth_succ (tu : CXTranslationUnit) (e q : Nat) (he : e ≤ q) :
    paren_depth tu e (q + 1)
      = if followed_by tu (q + 1) "(" then paren_depth tu e q + 1
        else if followed_by tu (q + 1) ")" then paren_depth tu e q - 1
        else paren_depth tu e q := by
  rw [paren_depth, if_neg (by omega)]

theorem match_parens_zero (tu : CXTranslationUnit) (fuel next prev : Nat) :
    match_parens tu fuel 0 next prev = Outcome.value prev := by
  cases fuel <;> simp [match_parens]

/-- One iteration of the scan moves the counter from the depth at `q` to the depth at
`q + 1`. -/
theorem match_parens_step (tu : CXTranslationUnit) (e q f prev : Nat) (he : e ≤ q)
    (hc : paren_depth tu e q ≠ 0)
    (hlex : tu.tokenize (q + 1) (get_next_location (q + 1)) ≠ []) :
    match_parens tu (f + 1) (paren_depth tu e q) (q + 1) prev
      = match_parens tu f (paren_depth tu e (q + 1)) (get_next_location (q + 1)) (q + 1) := by
  rcases token_after_is_cases tu (q + 1) "(" with ⟨h1, _⟩ | ⟨_, b1, h2⟩
  · exact absurd h1 hlex
  · rcases token_after_is_cases tu (q + 1) ")" with ⟨h1, _⟩ | ⟨_, b2, h3⟩
    · exact absurd h1 hlex
    · rw [paren_depth_succ tu e q he]
      simp only [match_parens, hc, if_false, followed_by, h2, h3]
      cases b1 <;> cases b2 <;> simp

theorem match_parens_finds (tu : CXTranslationUnit) (e : Nat) :
    ∀ (m q fuel prev : Nat), e ≤ q → paren_depth tu e q ≠ 0 →
      (∀ j, q < j → j < q + m + 1 → paren_depth tu e j ≠ 0) →
      paren_depth tu e (q + m + 1) = 0 →
      (∀ j, q < j → j ≤ q + m + 1 → tu.tokenize j (get_next_location j) ≠ []) →
      q + m + 1 < 4294967296 → m + 1 ≤ fuel →
      match_parens tu fuel (paren_depth tu e q) (q + 1) prev = Outcome.value (q + m + 1) := by
  intro m
  induction m with
  | zero =>
    intro q fuel prev he hc _ hzero hlex _ hfuel
    obtain ⟨f, rfl⟩ : ∃ f, fuel = f + 1 := ⟨fuel - 1, by omega⟩
    rw [match_parens_step tu e q f prev he hc (hlex (q + 1) (by omega) (by omega))]
    simp only [Nat.add_zero] at hzero
    rw [hzero, match_parens_zero]
  | succ m ih =>
    intro q fuel prev he hc hnz hzero hlex h32 hfuel
    obtain ⟨f, rfl⟩ : ∃ f, fuel = f + 1 := ⟨fuel - 1, by omega⟩
    rw [match_parens_step tu e q f prev he hc (hlex (q + 1) (by omega) (by omega)),
      get_next_location_succ (q + 1) (by omega)]
    have hrec := ih (q + 1) f (q + 1) (by omega) (hnz (q + 1) (by omega) (by omega))
      (fun j hj1 hj2 => hnz j (by omega) (by omega))
      (by rw [show q + 1 + m + 1 = q + (m + 1) + 1 by omega]; exact hzero)
      (fun j hj1 hj2 => hlex j (by omega) (by omega)) (by omega) (by omega)
    rw [hrec]
    exact congrArg Outcome.value (by omega)

theorem paren_depth_pos (tu : CXTranslationUnit) (e p : Nat)
    (hnz : ∀ j, e < j → j < p → paren_depth tu e j ≠ 0) :
    ∀ j, e ≤ j → j < p → 1 ≤ paren_depth tu e j := by
  intro j
  induction j with
  | zero =>
    intro _ _
    simp [paren_depth]
  | succ j ih =>
    intro he hp
    rcases Nat.eq_or_lt_of_le he with heq | hlt
    · rw [paren_depth, if_pos (by omega)]
    · have hprev := ih (by omega) (by omega)
      have hne := hnz (j + 1) hlt hp
      rw [paren_depth_succ tu e j (by omega)] at hne ⊢
      split_ifs at hne ⊢ <;> omega

theorem paren_depth_closes (tu : CXTranslationUnit) (e p : Nat) (hlt : e < p)
    (hzero : paren_depth tu e p = 0)
    (hnz : ∀ j, e < j → j < p → paren_depth tu e j ≠ 0) :
    token_after_is tu p ")" = Outcome.value true := by
  obtain ⟨q, rfl⟩ : ∃ q, p = q + 1 := ⟨p - 1, by omega⟩
  have hprev := paren_depth_pos tu e (q + 1) hnz q (by omega) (by omega)
  rw [paren_depth_succ tu e q (by omega)] at hzero
  split_ifs at hzero with h1 h2
  · omega
  · exact (followed_by_iff tu (q + 1) ")").1 h2
  · omega

/-- The parenthesis scan aborts at the first probe that lexes to nothing: when the depth
has not reached 0 and the probes lex a token before `q + m + 1`, and the probe at
`q + m + 1` lexes to nothing. -/
theorem match_parens_aborts (tu : CXTranslationUnit) (e : Nat) :
    ∀ (m q fuel prev : Nat), e ≤ q → paren_depth tu e q ≠ 0 →
      (∀ j, q < j → j < q + m + 1 →
        paren_depth tu e j ≠ 0 ∧ tu.tokenize j (get_next_location j) ≠ []) →
      tu.tokenize (q + m + 1) (get_next_location (q + m + 1)) = [] →
      q + m + 1 < 4294967296 → m + 1 ≤ fuel →
      match_parens tu fuel (paren_depth tu e q) (q + 1) prev = Outcome.assertion_failure := by
  intro m
  induction m with
  | zero =>
    intro q fuel prev _ hc _ hnil _ hfuel
    obtain ⟨f, rfl⟩ : ∃ f, fuel = f + 1 := ⟨fuel - 1, by omega⟩
    simp only [Nat.add_zero] at hnil
    simp only [match_parens, hc, if_false, token_after_is_of_nil tu (q + 1) "(" hnil]
  | succ m ih =>
    intro q fuel prev he hc hmid hnil h32 hfuel
    obtain ⟨f, rfl⟩ : ∃ f, fuel = f + 1 := ⟨fuel - 1, by omega⟩
    rw [match_parens_step tu e q f prev he hc (hmid (q + 1) (by omega) (by omega)).2,
      get_next_location_succ (q + 1) (by omega)]
    exact ih (q + 1) f (q + 1) (by omega) (hmid (q + 1) (by omega) (by omega)).1
      (fun j hj1 hj2 => hmid j (by omega) (by omega))
      (by rw [show q + 1 + m + 1 = q + (m + 1) + 1 by omega]; exact hnil)
      (by omega) (by omega)

theorem get_extent_paren_scan_aborts (fuel : Nat) (tu : CXTranslationUnit)
    (cur : CXCursor) (q : Nat) (hnf : ¬ function_like cur)
    (hk : cur.kind = CXCursorKind.TemplateTypeParameter)
    (hopen : token_after_is tu cur.extentEnd "(" = Outcome.value true)
    (hlt : cur.extentEnd < q) (h32 : q < 4294967296)
    (hmid : ∀ j, cur.extentEnd < j → j < q →
      paren_depth tu cur.extentEnd j ≠ 0 ∧ tu.tokenize j (get_next_location j) ≠ [])
    (hnil : tu.tokenize q (get_next_location q) = [])
    (hfuel : q - cur.extentEnd ≤ fuel) :
    get_extent fuel tu cur = Outcome.assertion_failure := by
  have hstart : paren_depth tu cur.extentEnd cur.extentEnd = 1 := by
    cases h : cur.extentEnd with
    | zero => simp [paren_depth]
    | succ n => simp [paren_depth]
  have hscan := match_parens_aborts tu cur.extentEnd (q - cur.extentEnd - 1) cur.extentEnd
    fuel cur.extentEnd (Nat.le_refl _) (by rw [hstart]; decide)
    (fun j hj1 hj2 => hmid j hj1 (by omega))
    (by rw [show cur.extentEnd + (q - cur.extentEnd - 1) + 1 = q by omega]; exact hnil)
    (by omega) (by omega)
  rw [hstart] at hscan
  rw [get_extent_type_param fuel tu cur hnf hk, hopen]
  simp only
  rw [get_next_location_succ cur.extentEnd (by omega), hscan]

/-! ## Termination at the end of the file -/

theorem token_after_is_eof (tu : CXTranslationUnit) (len : Nat) (s : String)
    (heof : tu.tokenize len (get_next_location len) = []) :
    token_after_is tu len s = Outcome.assertion_failure := by
  rcases token_after_is_cases tu len s with ⟨_, h⟩ | ⟨h, _⟩
  · exact h
  · exact absurd heof h

theorem advance_to_semicolon_bounded (tu : CXTranslationUnit) (len : Nat)
    (heof : tu.tokenize len (get_next_location len) = []) (h32 : len < 4294967296) :
    ∀ (n e fuel : Nat), e + n + 1 = len → n + 1 ≤ fuel →
      advance_to_semicolon tu fuel e ≠ Outcome.out_of_fuel := by
  intro n
  induction n with
  | zero =>
    intro e fuel hlen hfuel
    obtain ⟨f, rfl⟩ : ∃ f, fuel = f + 1 := ⟨fuel - 1, by omega⟩
    have hstep : get_next_location e = len := by
      rw [get_next_location_succ e (by omega)]; omega
    simp [advance_to_semicolon, hstep, token_after_is_eof tu len ";" heof]
  | succ n ih =>
    intro e fuel hlen hfuel
    obtain ⟨f, rfl⟩ : ∃ f, fuel = f + 1 := ⟨fuel - 1, by omega⟩
    have hstep : get_next_location e = e + 1 := get_next_location_succ e (by omega)
    have hrec := ih (e + 1) f (by omega) (by omega)
    rcases token_after_is_cases tu (e + 1) ";" with ⟨_, h⟩ | ⟨_, b, h⟩
    · simp [advance_to_semicolon, hstep, h]
    · cases b with
      | true => simp [advance_to_semicolon, hstep, h]
      | false => simpa [advance_to_semicolon, hstep, h] using hrec

theorem match_parens_bounded (tu : CXTranslationUnit) (len : Nat)
    (heof : tu.tokenize len (get_next_location len) = []) (h32 : len < 4294967296) :
    ∀ (n q fuel : Nat) (c : Int) (prev : Nat), q + n + 1 = len → n + 1 ≤ fuel →
      match_parens tu fuel c (q + 1) prev ≠ Outcome.out_of_fuel := by
  intro n
  induction n with
  | zero =>
    intro q fuel c prev hlen hfuel
    obtain ⟨f, rfl⟩ : ∃ f, fuel = f + 1 := ⟨fuel - 1, by omega⟩
    have hq : q + 1 = len := by omega
    by_cases hc : c = 0
    · simp [match_parens, hc]
    · simp [match_parens, hc, hq, token_after_is_eof tu len "(" heof]
  | succ n ih =>
    intro q fuel c prev hlen hfuel
    obtain ⟨f, rfl⟩ : ∃ f, fuel = f + 1 := ⟨fuel - 1, by omega⟩
    have hstep : get_next_location (q + 1) = q + 1 + 1 :=
      get_next_location_succ (q + 1) (by omega)
    have hrec := fun c1 => ih (q + 1) f c1 (q + 1) (by omega) (by omega)
    by_cases hc : c = 0
    · simp [match_parens, hc]
    · rcases token_after_is_cases tu (q + 1) "(" with ⟨_, h⟩ | ⟨_, b1, h⟩
      · simp [match_parens, hc, h]
      · cases b1 with
        | true => simpa [match_parens, hc, h, hstep] using hrec (c + 1)
        | false =>
          rcases token_after_is_cases tu (q + 1) ")" with ⟨_, h2⟩ | ⟨_, b2, h2⟩
          · simp [match_parens, hc, h, h2]
          · cases b2 with
            | true => simpa [match_parens, hc, h, h2, hstep] using hrec (c - 1)
            | false => simpa [match_parens, hc, h, h2, hstep] using hrec c

/-- With the end of the file at `len`, a budget of `len - e` iterations is never used
up. -/
theorem get_extent_bounded (fuel : Nat) (tu : CXTranslationUnit) (cur : CXCursor)
    (len : Nat) (h32 : len < 4294967296) (hend : cur.extentEnd ≤ len)
    (heof : tu.tokenize len (get_next_location len) = [])
    (hfuel : len - cur.extentEnd ≤ fuel) :
    get_extent fuel tu cur ≠ Outcome.out_of_fuel := by
  have hscan : ∀ s, token_after_is tu cur.extentEnd s = Outcome.value false →
      advance_to_semicolon tu fuel cur.extentEnd ≠ Outcome.out_of_fuel := by
    intro s hs
    have hne : cur.extentEnd ≠ len := by
      intro h
      rw [h, token_after_is_eof tu len s heof] at hs
      simp at hs
    exact advance_to_semicolon_bounded tu len heof h32 (len - cur.extentEnd - 1)
      cur.extentEnd fuel (by omega) (by omega)
  by_cases hf : function_like cur
  · rw [get_extent_of_function_like fuel tu cur hf]
    cases hc : first_body_child cur with
    | some child =>
      rw [get_extent_function_shrunk fuel tu cur child _ _ hc]
      by_cases hm : cur.kind = CXCursorKind.CXXMethod <;> simp [hm]
    | none =>
      rw [get_extent_function_plain fuel tu cur _ _ hc]
      rcases token_after_is_cases tu cur.extentEnd ";" with ⟨_, h⟩ | ⟨_, b, h⟩
      · simp [h]
      · cases b with
        | true => by_cases hm : cur.kind = CXCursorKind.CXXMethod <;> simp [h, hm]
        | false =>
          have := hscan ";" h
          cases hadv : advance_to_semicolon tu fuel cur.extentEnd with
          | value e2 => simp [h, hadv]
          | assertion_failure => simp [h, hadv]
          | out_of_fuel => exact absurd hadv this
  · by_cases hk : cur.kind = CXCursorKind.TemplateTypeParameter
    · rw [get_extent_type_param fuel tu cur hf hk]
      rcases token_after_is_cases tu cur.extentEnd "(" with ⟨_, h⟩ | ⟨_, b, h⟩
      · simp [h]
      · cases b with
        | false => simp [h]
        | true =>
          have hne : cur.extentEnd ≠ len := by
            intro h2
            rw [h2, token_after_is_eof tu len "(" heof] at h
            simp at h
          have hb := match_parens_bounded tu len heof h32 (len - cur.extentEnd - 1)
            cur.extentEnd fuel 1 cur.extentEnd (by omega) (by omega)
          rw [get_next_location_succ cur.extentEnd (by omega)]
          cases hp : match_parens tu fuel 1 (cur.extentEnd + 1) cur.extentEnd with
          | value e2 => simp [h, hp]
          | assertion_failure => simp [h, hp]
          | out_of_fuel => exact absurd hp hb
    · by_cases ha : cur.kind = CXCursorKind.TypeAliasDecl
      · rw [get_extent_type_alias fuel tu cur ha hf]
        rcases token_after_is_cases tu cur.extentEnd ";" with ⟨_, h⟩ | ⟨_, b, h⟩
        · simp [h]
        · cases b with
          | true => simp [h]
          | false =>
            have := hscan ";" h
            cases hadv : advance_to_semicolon tu fuel cur.extentEnd with
            | value e2 => simp [h, hadv]
            | assertion_failure => simp [h, hadv]
            | out_of_fuel => exact absurd hadv this
      · rw [get_extent_other fuel tu cur hf ha hk]
        simp


/-! ## A larger budget does not change a finished run -/

theorem advance_to_semicolon_mono (tu : CXTranslationUnit) :
    ∀ (fuel e : Nat), advance_to_semicolon tu fuel e ≠ Outcome.out_of_fuel →
      ∀ more, fuel ≤ more → advance_to_semicolon tu more e = advance_to_semicolon tu fuel e := by
  intro fuel
  induction fuel with
  | zero => intro e h; exact absurd rfl h
  | succ f ih =>
    intro e h more hle
    obtain ⟨g, rfl⟩ : ∃ g, more = g + 1 := ⟨more - 1, by omega⟩
    rcases token_after_is_cases tu (get_next_location e) ";" with ⟨_, h2⟩ | ⟨_, b, h2⟩
    · simp only [advance_to_semicolon, h2]
    · cases b with
      | true => simp only [advance_to_semicolon, h2]
      | false =>
        simp only [advance_to_semicolon, h2] at h ⊢
        exact ih _ h g (by omega)

theorem match_parens_mono (tu : CXTranslationUnit) :
    ∀ (fuel : Nat) (c : Int) (next prev : Nat),
      match_parens tu fuel c next prev ≠ Outcome.out_of_fuel →
      ∀ more, fuel ≤ more →
        match_parens tu more c next prev = match_parens tu fuel c next prev := by
  intro fuel
  induction fuel with
  | zero =>
    intro c next prev h more _
    by_cases hc : c = 0
    · rw [hc, match_parens_zero, match_parens_zero]
    · simp [match_parens, hc] at h
  | succ f ih =>
    intro c next prev h more hle
    obtain ⟨g, rfl⟩ : ∃ g, more = g + 1 := ⟨more - 1, by omega⟩
    by_cases hc : c = 0
    · rw [hc, match_parens_zero, match_parens_zero]
    · rcases token_after_is_cases tu next "(" with ⟨_, h2⟩ | ⟨_, b1, h2⟩
      · simp only [match_parens, hc, if_false, h2]
      · cases b1 with
        | true =>
          simp only [match_parens, hc, if_false, h2] at h ⊢
          exact ih _ _ _ h g (by omega)
        | false =>
          rcases token_after_is_cases tu next ")" with ⟨_, h3⟩ | ⟨_, b2, h3⟩
          · simp only [match_parens, hc, if_false, h2, h3]
          · cases b2 with
            | true =>
              simp only [match_parens, hc, if_false, h2, h3] at h ⊢
              exact ih _ _ _ h g (by omega)
            | false =>
              simp only [match_parens, hc, if_false, h2, h3] at h ⊢
              exact ih _ _ _ h g (by omega)

theorem get_extent_mono (fuel more : Nat) (tu : CXTranslationUnit) (cur : CXCursor)
    (h : get_extent fuel tu cur ≠ Outcome.out_of_fuel) (hle : fuel ≤ more) :
    get_extent more tu cur = get_extent fuel tu cur := by
  by_cases hf : function_like cur
  · rw [get_extent_of_function_like fuel tu cur hf] at h ⊢
    rw [get_extent_of_function_like more tu cur hf]
    cases hc : first_body_child cur with
    | some child =>
      rw [get_extent_function_shrunk fuel tu cur child _ _ hc,
        get_extent_function_shrunk more tu cur child _ _ hc]
    | none =>
      rw [get_extent_function_plain fuel tu cur _ _ hc] at h ⊢
      rw [get_extent_function_plain more tu cur _ _ hc]
      rcases token_after_is_cases tu cur.extentEnd ";" with ⟨_, h2⟩ | ⟨_, b, h2⟩
      · simp only [h2]
      · cases b with
        | true => simp only [h2]
        | false =>
          simp only [h2] at h ⊢
          have hadv : advance_to_semicolon tu fuel cur.extentEnd ≠ Outcome.out_of_fuel := by
            intro hx
            rw [hx] at h
            exact h rfl
          rw [advance_to_semicolon_mono tu fuel _ hadv more hle]
  · by_cases hk : cur.kind = CXCursorKind.TemplateTypeParameter
    · rw [get_extent_type_param fuel tu cur hf hk] at h ⊢
      rw [get_extent_type_param more tu cur hf hk]
      rcases token_after_is_cases tu cur.extentEnd "(" with ⟨_, h2⟩ | ⟨_, b, h2⟩
      · simp only [h2]
      · cases b with
        | false => simp only [h2]
        | true =>
          simp only [h2] at h ⊢
          have hp : match_parens tu fuel 1 (get_next_location cur.extentEnd) cur.extentEnd
              ≠ Outcome.out_of_fuel := by
            intro hx
            rw [hx] at h
            exact h rfl
          rw [match_parens_mono tu fuel _ _ _ hp more hle]
    · by_cases ha : cur.kind = CXCursorKind.TypeAliasDecl
      · rw [get_extent_type_alias fuel tu cur ha hf] at h ⊢
        rw [get_extent_type_alias more tu cur ha hf]
        rcases token_after_is_cases tu cur.extentEnd ";" with ⟨_, h2⟩ | ⟨_, b, h2⟩
        · simp only [h2]
        · cases b with
          | true => simp only [h2]
          | false =>
            simp only [h2] at h ⊢
            have hadv : advance_to_semicolon tu fuel cur.extentEnd ≠ Outcome.out_of_fuel := by
              intro hx
              rw [hx] at h
              exact h rfl
            rw [advance_to_semicolon_mono tu fuel _ hadv more hle]
      · rw [get_extent_other fuel tu cur hf ha hk, get_extent_other more tu cur hf ha hk]

/-- The scan for `;` carries no bound of its own: against a provider that never lexes an
empty range and never reads `;`, every budget is used up. -/
theorem advance_to_semicolon_endless :
    ∀ (fuel e : Nat), advance_to_semicolon endlessTU fuel e = Outcome.out_of_fuel := by
  intro fuel
  induction fuel with
  | zero => intro e; rfl
  | succ f ih =>
    intro e
    have h : token_after_is endlessTU (get_next_location e) ";" = Outcome.value false := rfl
    simp only [advance_to_semicolon, h, ih]

theorem get_extent_endless (fuel : Nat) :
    get_extent fuel endlessTU sampleBareFunction = Outcome.out_of_fuel := by
  have h : token_after_is endlessTU 0 ";" = Outcome.value false := rfl
  rw [get_extent_of_function_like fuel endlessTU sampleBareFunction (by decide),
    get_extent_function_plain fuel endlessTU sampleBareFunction _ _ rfl]
  simp only [sampleBareFunction, CXCursor.extentEnd, h, advance_to_semicolon_endless]

/-! ## Claims -/

/-- C1: for a function-like cursor with a direct child that is a compound statement, a
try block or an initializer list, `get_extent` returns a range whose end is the start of
the extent of the first such child in visit order, for every reported end, every
provider and every loop budget: no probe is made and later children do not matter. -/
theorem C1_end_is_start_of_first_body_child (fuel : Nat) (tu : CXTranslationUnit)
    (cur child : CXCursor) (hf : function_like cur)
    (hc : first_body_child cur = some child) :
    ∃ b, get_extent fuel tu cur = Outcome.value (b, child.extentStart) := by
  rw [get_extent_of_function_like fuel tu cur hf,
    get_extent_function_shrunk fuel tu cur child _ _ hc]
  by_cases hm : cur.kind = CXCursorKind.CXXMethod
  · exact ⟨get_next_location cur.extentStart (-1), by simp [hm]⟩
  · exact ⟨cur.extentStart, by simp [hm]⟩

/-- Witness of C1: the sample function definition, whose first matching child starts at
offset 20, ends at 20 although a later initializer list starts at 30. -/
theorem C1_witness :
    ∃ b, get_extent 0 sampleTU sampleFunctionDef = Outcome.value (b, 20) :=
  C1_end_is_start_of_first_body_child 0 sampleTU sampleFunctionDef sampleBody
    (by decide) rfl

/-- C2: for a function-like cursor without a body, try-block or initializer-list child
and with reported end `e`: when the token after `e` is `;` the returned end is `e`;
otherwise, when `e1 > e` is the first offset whose following token is `;` (every offset
from `e` up to `e1` is probed and not followed by `;`), `get_extent` returns, within
`e1 - e` iterations, the reported begin and the end `e1`. -/
theorem C2_bodyless_function_end (fuel : Nat) (tu : CXTranslationUnit) (cur : CXCursor)
    (hf : function_like cur) (hc : first_body_child cur = none) :
    (token_after_is tu cur.extentEnd ";" = Outcome.value true →
      ∃ b, get_extent fuel tu cur = Outcome.value (b, cur.extentEnd))
    ∧ (∀ e1, cur.extentEnd < e1 → e1 < 4294967296 →
        token_after_is tu e1 ";" = Outcome.value true →
        (∀ p, cur.extentEnd ≤ p → p < e1 → token_after_is tu p ";" = Outcome.value false) →
        e1 - cur.extentEnd ≤ fuel →
        get_extent fuel tu cur = Outcome.value (cur.extentStart, e1)) := by
  rw [get_extent_of_function_like fuel tu cur hf,
    get_extent_function_plain fuel tu cur _ _ hc]
  constructor
  · intro h
    rw [h]
    by_cases hm : cur.kind = CXCursorKind.CXXMethod
    · exact ⟨get_next_location cur.extentStart (-1), by simp [hm]⟩
    · exact ⟨cur.extentStart, by simp [hm]⟩
  · intro e1 hlt h32 hfound hnot hfuel
    rw [hnot cur.extentEnd (Nat.le_refl _) hlt]
    simp only
    rw [advance_to_semicolon_least tu cur.extentEnd e1 fuel hlt h32 hfound hnot hfuel]

/-- Witness of C2: the sample prototype ends at its reported end 12, which is followed
by `;`; the sample declaration reported to end at 10 is extended to 12, the first
offset followed by `;`. -/
theorem C2_witness :
    (∃ b, get_extent 0 sampleTU sampleFunctionProto = Outcome.value (b, 12))
    ∧ get_extent 2 sampleTU sampleMethodShort = Outcome.value (3, 12) :=
  ⟨(C2_bodyless_function_end 0 sampleTU sampleFunctionProto (by decide) rfl).1 (by decide),
   (C2_bodyless_function_end 2 sampleTU sampleMethodShort (by decide) rfl).2 12
      (by decide) (by decide) (by decide)
      (by
        intro p h1 h2
        have h1 : 10 ≤ p := h1
        have hp : p = 10 ∨ p = 11 := by omega
        rcases hp with rfl | rfl <;> decide)
      (by decide)⟩

/-- C3: for a type alias that is not function-like, with reported end `e`: when the
token after `e` is `;` the reported range is returned unchanged; otherwise, when
`s > e` is the first offset whose following token is `;`, `get_extent` returns, within
`s - e` iterations, the reported begin and the end `s + 1`. -/
theorem C3_type_alias_end (fuel : Nat) (tu : CXTranslationUnit) (cur : CXCursor)
    (hk : cur.kind = CXCursorKind.TypeAliasDecl) (hnf : ¬ function_like cur) :
    (token_after_is tu cur.extentEnd ";" = Outcome.value true →
      get_extent fuel tu cur = Outcome.value (cur.extentStart, cur.extentEnd))
    ∧ (∀ s, cur.extentEnd < s → s + 1 < 4294967296 →
        token_after_is tu s ";" = Outcome.value true →
        (∀ p, cur.extentEnd ≤ p → p < s → token_after_is tu p ";" = Outcome.value false) →
        s - cur.extentEnd ≤ fuel →
        get_extent fuel tu cur = Outcome.value (cur.extentStart, s + 1)) := by
  rw [get_extent_type_alias fuel tu cur hk hnf]
  constructor
  · intro h
    rw [h]
  · intro s hlt h32 hfound hnot hfuel
    rw [hnot cur.extentEnd (Nat.le_refl _) hlt]
    simp only
    rw [advance_to_semicolon_least tu cur.extentEnd s fuel hlt (by omega) hfound hnot hfuel]
    simp only
    rw [get_next_location_succ s h32]

/-- Witness of C3: the alias reported to end at 12 is unchanged; the alias reported to
end at 10 gets the end 13, one past the offset 12 that is followed by `;`. -/
theorem C3_witness :
    get_extent 0 sampleTU sampleAliasDone = Outcome.value (3, 12)
    ∧ get_extent 2 sampleTU sampleAliasShort = Outcome.value (3, 13) :=
  ⟨(C3_type_alias_end 0 sampleTU sampleAliasDone rfl (by decide)).1 (by decide),
   (C3_type_alias_end 2 sampleTU sampleAliasShort rfl (by decide)).2 12
      (by decide) (by decide) (by decide)
      (by
        intro p h1 h2
        have h1 : 10 ≤ p := h1
        have hp : p = 10 ∨ p = 11 := by omega
        rcases hp with rfl | rfl <;> decide)
      (by decide)⟩

/-- C4: for a template type parameter that is not function-like and whose reported end
`e` is followed by `(`: with the depth 1 at `e`, raised by every later offset followed
by `(` and lowered by every later offset followed by `)`, if `p > e` is the least offset
of depth 0 and every probe from `e + 1` to `p` lexes a token, then `get_extent`
returns, within `p - e` iterations, the reported begin and the end `p`, and `p` is an
offset followed by `)`. -/
theorem C4_type_param_matching_paren (fuel : Nat) (tu : CXTranslationUnit) (cur : CXCursor)
    (p : Nat) (hk : cur.kind = CXCursorKind.TemplateTypeParameter)
    (hnf : ¬ function_like cur)
    (hopen : token_after_is tu cur.extentEnd "(" = Outcome.value true)
    (hlt : cur.extentEnd < p) (h32 : p < 4294967296)
    (hzero : paren_depth tu cur.extentEnd p = 0)
    (hleast : ∀ q, cur.extentEnd < q → q < p → paren_depth tu cur.extentEnd q ≠ 0)
    (hlex : ∀ q, cur.extentEnd < q → q ≤ p → tu.tokenize q (get_next_location q) ≠ [])
    (hfuel : p - cur.extentEnd ≤ fuel) :
    get_extent fuel tu cur = Outcome.value (cur.extentStart, p)
    ∧ token_after_is tu p ")" = Outcome.value true := by
  refine ⟨?_, paren_depth_closes tu cur.extentEnd p hlt hzero hleast⟩
  rw [get_extent_type_param fuel tu cur hnf hk, hopen]
  simp only
  rw [get_next_location_succ cur.extentEnd (by omega)]
  have hstart : paren_depth tu cur.extentEnd cur.extentEnd = 1 := by
    cases h : cur.extentEnd with
    | zero => simp [paren_depth]
    | succ n => simp [paren_depth]
  have hscan := match_parens_finds tu cur.extentEnd (p - cur.extentEnd - 1) cur.extentEnd
    fuel cur.extentEnd (Nat.le_refl _) (by rw [hstart]; decide)
    (fun j hj1 hj2 => hleast j hj1 (by omega))
    (by rw [show cur.extentEnd + (p - cur.extentEnd - 1) + 1 = p by omega]; exact hzero)
    (fun j hj1 hj2 => hlex j hj1 (by omega)) (by omega) (by omega)
  rw [hstart] at hscan
  rw [hscan]
  simp only [Outcome.value.injEq, Prod.mk.injEq, true_and]
  omega

/-- Witness of C4: in the sample `decltype(f(0))` the reported end 5 is followed by `(`,
the depth first reaches 0 at offset 10, and the corrected range is `(1, 10)`. -/
theorem C4_witness :
    get_extent 5 parenTU sampleTypeParam = Outcome.value (1, 10)
    ∧ token_after_is parenTU 10 ")" = Outcome.value true :=
  C4_type_param_matching_paren 5 parenTU sampleTypeParam 10 rfl (by decide) (by decide)
    (by decide) (by decide) (by decide)
    (by
      intro q h1 h2
      have h1 : 5 < q := h1
      have hq : q = 6 ∨ q = 7 ∨ q = 8 ∨ q = 9 := by omega
      rcases hq with rfl | rfl | rfl | rfl <;> decide)
    (by
      intro q h1 h2
      have h1 : 5 < q := h1
      have hq : q = 6 ∨ q = 7 ∨ q = 8 ∨ q = 9 ∨ q = 10 := by omega
      rcases hq with rfl | rfl | rfl | rfl | rfl <;> decide)
    (by decide)

/-- C5: a cursor that is neither function-like nor a type alias gets exactly its reported
range back, for every provider and loop budget, the one exception being a template type
parameter whose reported end is followed by `(`: a template type parameter is unchanged
when the probe at its end reads another token, and non-type, template-template and
function parameters are unchanged whatever follows. -/
theorem C5_other_kinds_unchanged (fuel : Nat) (tu : CXTranslationUnit) (cur : CXCursor)
    (hnf : ¬ function_like cur) (hna : cur.kind ≠ CXCursorKind.TypeAliasDecl)
    (hex : cur.kind = CXCursorKind.TemplateTypeParameter →
      token_after_is tu cur.extentEnd "(" = Outcome.value false) :
    get_extent fuel tu cur = Outcome.value (cur.extentStart, cur.extentEnd) := by
  by_cases hk : cur.kind = CXCursorKind.TemplateTypeParameter
  · rw [get_extent_type_param fuel tu cur hnf hk, hex hk]
  · exact get_extent_other fuel tu cur hnf hna hk

/-- Witness of C5: with `(` after the reported end 5, a function parameter, a non-type
and a template-template parameter keep the range `(1, 5)`; the template type
parameter whose end 11 is followed by `>` keeps `(1, 11)`. -/
theorem C5_witness :
    token_after_is parenTU 5 "(" = Outcome.value true
    ∧ get_extent 0 parenTU sampleParmBeforeParen = Outcome.value (1, 5)
    ∧ get_extent 0 parenTU sampleNonTypeParam = Outcome.value (1, 5)
    ∧ get_extent 0 parenTU sampleTemplateTemplateParam = Outcome.value (1, 5)
    ∧ get_extent 0 parenTU sampleTypeParamPlain = Outcome.value (1, 11) :=
  ⟨by decide,
   C5_other_kinds_unchanged 0 parenTU sampleParmBeforeParen (by decide) (by decide)
     (fun h => absurd h (by decide)),
   C5_other_kinds_unchanged 0 parenTU sampleNonTypeParam (by decide) (by decide)
     (fun h => absurd h (by decide)),
   C5_other_kinds_unchanged 0 parenTU sampleTemplateTemplateParam (by decide) (by decide)
     (fun h => absurd h (by decide)),
   C5_other_kinds_unchanged 0 parenTU sampleTypeParamPlain (by decide) (by decide)
     (fun _ => by decide)⟩

/-- C6: when a function-like cursor has a body, try-block or initializer-list child, a
cursor whose own kind is `CXXMethod` gets the begin one offset unit before the reported
begin (for a reported begin of at least 1), and every function-like cursor of another
own kind gets the reported begin. -/
theorem C6_begin_after_shrink (fuel : Nat) (tu : CXTranslationUnit) (cur child : CXCursor)
    (hc : first_body_child cur = some child) :
    (cur.kind = CXCursorKind.CXXMethod → 1 ≤ cur.extentStart →
      cur.extentStart < 4294967296 →
      get_extent fuel tu cur = Outcome.value (cur.extentStart - 1, child.extentStart))
    ∧ (function_like cur → cur.kind ≠ CXCursorKind.CXXMethod →
      get_extent fuel tu cur = Outcome.value (cur.extentStart, child.extentStart)) := by
  constructor
  · intro hm h1 h32
    have hf : function_like cur := Or.inl (by rw [hm]; rfl)
    rw [get_extent_of_function_like fuel tu cur hf,
      get_extent_function_shrunk fuel tu cur child _ _ hc, if_pos hm,
      get_next_location_pred _ h1 h32]
  · intro hf hm
    rw [get_extent_of_function_like fuel tu cur hf,
      get_extent_function_shrunk fuel tu cur child _ _ hc, if_neg hm]

/-- Witness of C6: the sample method definition, reported from 3, starts at 2; the
sample function definition keeps the begin 3. -/
theorem C6_witness :
    get_extent 0 sampleTU sampleMethodDef = Outcome.value (2, 20)
    ∧ get_extent 0 sampleTU sampleFunctionDef = Outcome.value (3, 20) :=
  ⟨(C6_begin_after_shrink 0 sampleTU sampleMethodDef sampleBody rfl).1 rfl
      (by decide) (by decide),
   (C6_begin_after_shrink 0 sampleTU sampleFunctionDef sampleBody rfl).2
      (by decide) (by decide)⟩

/-- C7, counterexample: the sample method prototype is function-like, has no body,
try-block or initializer-list child, and its reported end 12 is followed by `;`; its
reported begin is 3, and `get_extent` returns the begin 2. -/
theorem C7_counterexample :
    function_like sampleMethodProto
    ∧ first_body_child sampleMethodProto = none
    ∧ sampleMethodProto.extentStart = 3
    ∧ get_extent 0 sampleTU sampleMethodProto = Outcome.value (2, 12) :=
  ⟨by decide, rfl, rfl, by decide⟩

/-- C7, amended: for a function-like cursor without a body, try-block or
initializer-list child, with reported end `e`: if the token after `e` is `;` the end
stays `e` and the begin is the reported one unless the own kind is `CXXMethod`, in which
case it is one unit before the reported begin; if the token after `e` is not `;`, every
range `get_extent` returns begins at the reported begin, and it does return one, ending
at `e1`, when `e1 > e` is the first offset followed by `;`. -/
theorem C7_begin_without_shrink (fuel : Nat) (tu : CXTranslationUnit) (cur : CXCursor)
    (hf : function_like cur) (hc : first_body_child cur = none) :
    (token_after_is tu cur.extentEnd ";" = Outcome.value true →
      cur.kind ≠ CXCursorKind.CXXMethod →
      get_extent fuel tu cur = Outcome.value (cur.extentStart, cur.extentEnd))
    ∧ (token_after_is tu cur.extentEnd ";" = Outcome.value true →
      cur.kind = CXCursorKind.CXXMethod →
      get_extent fuel tu cur
        = Outcome.value (get_next_location cur.extentStart (-1), cur.extentEnd)
      ∧ (1 ≤ cur.extentStart → cur.extentStart < 4294967296 →
          get_extent fuel tu cur = Outcome.value (cur.extentStart - 1, cur.extentEnd)))
    ∧ (token_after_is tu cur.extentEnd ";" = Outcome.value false →
      (∀ r, get_extent fuel tu cur = Outcome.value r → r.1 = cur.extentStart)
      ∧ (∀ e1, cur.extentEnd < e1 → e1 < 4294967296 →
          token_after_is tu e1 ";" = Outcome.value true →
          (∀ p, cur.extentEnd < p → p < e1 →
            token_after_is tu p ";" = Outcome.value false) →
          e1 - cur.extentEnd ≤ fuel →
          get_extent fuel tu cur = Outcome.value (cur.extentStart, e1))) := by
  rw [get_extent_of_function_like fuel tu cur hf,
    get_extent_function_plain fuel tu cur _ _ hc]
  refine ⟨?_, ?_, ?_⟩
  · intro h hm
    rw [h]
    simp [hm]
  · intro h hm
    rw [h]
    refine ⟨by simp [hm], ?_⟩
    intro h1 h32
    simp [hm, get_next_location_pred _ h1 h32]
  · intro h
    rw [h]
    refine ⟨?_, ?_⟩
    · intro r hr
      cases hadv : advance_to_semicolon tu fuel cur.extentEnd with
      | value e2 =>
        rw [hadv] at hr
        simp only [Outcome.value.injEq] at hr
        rw [← hr]
      | assertion_failure =>
        rw [hadv] at hr
        simp at hr
      | out_of_fuel =>
        rw [hadv] at hr
        simp at hr
    · intro e1 hlt h32 hfound hnot hfuel
      simp only
      rw [advance_to_semicolon_least tu cur.extentEnd e1 fuel hlt h32 hfound
        (fun p hp1 hp2 => by
          rcases Nat.eq_or_lt_of_le hp1 with heq | hlt2
          · rw [← heq]; exact h
          · exact hnot p hlt2 hp2) hfuel]

/-- Witness of C7 (amended): the sample function prototype keeps begin and end; the
sample method prototype, whose end is followed by `;`, starts one unit earlier; the
sample method declaration whose end had to be extended keeps its begin. -/
theorem C7_witness :
    get_extent 0 sampleTU sampleFunctionProto = Outcome.value (3, 12)
    ∧ get_extent 0 sampleTU sampleMethodProto = Outcome.value (2, 12)
    ∧ get_extent 2 sampleTU sampleMethodShort = Outcome.value (3, 12) :=
  ⟨(C7_begin_without_shrink 0 sampleTU sampleFunctionProto (by decide) rfl).1
      (by decide) (by decide),
   ((C7_begin_without_shrink 0 sampleTU sampleMethodProto (by decide) rfl).2.1
      (by decide) rfl).2 (by decide) (by decide),
   ((C7_begin_without_shrink 2 sampleTU sampleMethodShort (by decide) rfl).2.2
      (by decide)).2 12 (by decide) (by decide) (by decide)
      (by
        intro p h1 h2
        have h1 : 10 < p := h1
        have hp : p = 11 := by omega
        subst hp
        decide)
      (by decide)⟩

/-- C8: when `get_extent` returns the range `r` and the provider lexes `r` to at least
one raw token, the entity tokenizer returns a sequence with exactly as many elements as
there are raw tokens, whose element at every index carries the spelling and the kind of
the raw token at that index. -/
theorem C8_tokens_are_raw_tokens_in_order (fuel : Nat) (tu : CXTranslationUnit)
    (cur : CXCursor) (r : Nat × Nat)
    (hext : get_extent fuel tu cur = Outcome.value r)
    (hlex : tu.tokenize r.1 r.2 ≠ []) :
    ∃ ts, tokenizer fuel tu cur = Outcome.value ts
      ∧ ts.length = (tu.tokenize r.1 r.2).length
      ∧ ∀ (i : Nat) (t : CXToken), (tu.tokenize r.1 r.2)[i]? = some t →
          ∃ t1 : token, ts[i]? = some t1 ∧ t1.value_ = t.spelling ∧ t1.kind_ = t.kind := by
  refine ⟨(tu.tokenize r.1 r.2).map token.ofRaw, ?_, by simp, ?_⟩
  · simp only [tokenizer, hext, simple_tokenizer_of_ne_nil tu r hlex, emplace_tokens_map]
  · intro i t ht
    exact ⟨token.ofRaw t, by simp [ht], rfl, rfl⟩

/-- Witness of C8: the sample function definition has the corrected range `(3, 20)`,
which lexes to four raw tokens. -/
theorem C8_witness :
    ∃ ts, tokenizer 0 sampleTU sampleFunctionDef = Outcome.value ts
      ∧ ts.length = (sampleTU.tokenize 3 20).length
      ∧ ∀ (i : Nat) (t : CXToken), (sampleTU.tokenize 3 20)[i]? = some t →
          ∃ t1 : token, ts[i]? = some t1 ∧ t1.value_ = t.spelling ∧ t1.kind_ = t.kind :=
  C8_tokens_are_raw_tokens_in_order 0 sampleTU sampleFunctionDef (3, 20)
    (by decide) (by decide)

/-- C9: the constructor of `simple_tokenizer` fails its assertion exactly when the
provider lexes the range to zero raw tokens.  For the entity tokenizer: a sequence it
returns has at least one element and is the image of all raw tokens of the corrected
range; when it aborts, the corrected range lexes to zero tokens or the cursor is one
that is probed and a probe range reached from the reported end within the budget lexes
to zero tokens; on a file of length `len`, at whose end the provider lexes nothing, it
aborts or returns a sequence of at least one token.  And it does abort in each of these
cases: the corrected range lexes to zero tokens; the probe at the reported end lexes to
zero tokens; the scan for `;` reaches, past offsets followed by other tokens, a probe
that lexes to zero tokens; the parenthesis scan reaches, before the depth is 0, a probe
that lexes to zero tokens. -/
theorem C9_assertion_and_nonempty (tu : CXTranslationUnit) :
    (∀ range, simple_tokenizer tu range = Outcome.assertion_failure
        ↔ tu.tokenize range.1 range.2 = [])
    ∧ (∀ fuel cur ts, tokenizer fuel tu cur = Outcome.value ts →
        1 ≤ ts.length
        ∧ ∃ r, get_extent fuel tu cur = Outcome.value r
            ∧ ts = (tu.tokenize r.1 r.2).map token.ofRaw)
    ∧ (∀ fuel cur, tokenizer fuel tu cur = Outcome.assertion_failure →
        (∃ r, get_extent fuel tu cur = Outcome.value r ∧ tu.tokenize r.1 r.2 = [])
        ∨ (probes_reported_end cur
            ∧ ∃ k, k ≤ fuel
                ∧ tu.tokenize (probe_offset cur.extentEnd k)
                    (get_next_location (probe_offset cur.extentEnd k)) = []))
    ∧ (∀ fuel cur len, len < 4294967296 → cur.extentEnd ≤ len →
        tu.tokenize len (get_next_location len) = [] → len - cur.extentEnd ≤ fuel →
        tokenizer fuel tu cur = Outcome.assertion_failure
        ∨ ∃ ts, tokenizer fuel tu cur = Outcome.value ts ∧ 1 ≤ ts.length)
    ∧ (∀ fuel cur r, get_extent fuel tu cur = Outcome.value r →
        tu.tokenize r.1 r.2 = [] →
        tokenizer fuel tu cur = Outcome.assertion_failure)
    ∧ (∀ fuel cur, probes_reported_end cur →
        tu.tokenize cur.extentEnd (get_next_location cur.extentEnd) = [] →
        get_extent fuel tu cur = Outcome.assertion_failure
        ∧ tokenizer fuel tu cur = Outcome.assertion_failure)
    ∧ (∀ fuel cur q, scans_for_semicolon cur → cur.extentEnd < q → q < 4294967296 →
        (∀ p, cur.extentEnd ≤ p → p < q → token_after_is tu p ";" = Outcome.value false) →
        tu.tokenize q (get_next_location q) = [] → q - cur.extentEnd ≤ fuel →
        get_extent fuel tu cur = Outcome.assertion_failure
        ∧ tokenizer fuel tu cur = Outcome.assertion_failure)
    ∧ (∀ fuel cur q, ¬ function_like cur →
        cur.kind = CXCursorKind.TemplateTypeParameter →
        token_after_is tu cur.extentEnd "(" = Outcome.value true →
        cur.extentEnd < q → q < 4294967296 →
        (∀ j, cur.extentEnd < j → j < q →
          paren_depth tu cur.extentEnd j ≠ 0 ∧ tu.tokenize j (get_next_location j) ≠ []) →
        tu.tokenize q (get_next_location q) = [] → q - cur.extentEnd ≤ fuel →
        get_extent fuel tu cur = Outcome.assertion_failure
        ∧ tokenizer fuel tu cur = Outcome.assertion_failure) := by
  refine ⟨simple_tokenizer_fails_iff tu, ?_, ?_, ?_, ?_, ?_, ?_, ?_⟩
  · intro fuel cur ts h
    unfold tokenizer at h
    cases hext : get_extent fuel tu cur with
    | value r =>
      rw [hext] at h
      rcases simple_tokenizer_cases tu r with ⟨_, h2⟩ | ⟨h1, h2⟩
      · simp [h2] at h
      · simp only [h2, emplace_tokens_map, Outcome.value.injEq] at h
        refine ⟨?_, r, rfl, h.symm⟩
        rw [← h, List.length_map]
        exact List.length_pos.2 h1
    | assertion_failure => simp [hext] at h
    | out_of_fuel => simp [hext] at h
  · intro fuel cur h
    unfold tokenizer at h
    cases hext : get_extent fuel tu cur with
    | value r =>
      rw [hext] at h
      rcases simple_tokenizer_cases tu r with ⟨h1, _⟩ | ⟨_, h2⟩
      · exact Or.inl ⟨r, rfl, h1⟩
      · simp [h2] at h
    | assertion_failure => exact Or.inr (get_extent_abort fuel tu cur hext)
    | out_of_fuel => simp [hext] at h
  · intro fuel cur len h32 hend heof hfuel
    have hb := get_extent_bounded fuel tu cur len h32 hend heof hfuel
    unfold tokenizer
    cases hext : get_extent fuel tu cur with
    | value r =>
      rcases simple_tokenizer_cases tu r with ⟨_, h2⟩ | ⟨h1, h2⟩
      · left
        simp only [h2]
      · right
        refine ⟨(tu.tokenize r.1 r.2).map token.ofRaw, ?_, ?_⟩
        · simp only [h2, emplace_tokens_map]
        · rw [List.length_map]
          exact List.length_pos.2 h1
    | assertion_failure => exact Or.inl rfl
    | out_of_fuel => exact absurd hext hb
  · intro fuel cur r hext hnil
    simp only [tokenizer, hext, (simple_tokenizer_fails_iff tu r).2 hnil]
  · intro fuel cur hp hnil
    have h := get_extent_first_probe_aborts fuel tu cur hp hnil
    exact ⟨h, tokenizer_of_get_extent_abort fuel tu cur h⟩
  · intro fuel cur q hs hlt h32 hnot hnil hfuel
    have h := get_extent_semicolon_scan_aborts fuel tu cur q hs hlt h32 hnot hnil hfuel
    exact ⟨h, tokenizer_of_get_extent_abort fuel tu cur h⟩
  · intro fuel cur q hnf hk hopen hlt h32 hmid hnil hfuel
    have h := get_extent_paren_scan_aborts fuel tu cur q hnf hk hopen hlt h32 hmid hnil hfuel
    exact ⟨h, tokenizer_of_get_extent_abort fuel tu cur h⟩

/-- Witness of C9: in the first sample file the range `(0, 1)` lexes to nothing and the
constructor fails; the tokens of the sample function definition are at least one; the
type alias whose corrected range `(3, 12)` lexes to nothing aborts, by the implication
from the abort and by the one to it; on this file, which ends at offset 13, the sample
method declaration aborts or yields tokens; the function declaration reported to end at
13 aborts at its first probe; the type alias of the second sample file aborts when its
scan reaches the end of the file at offset 12; and the template type parameter of the
file with the open parenthesis aborts when its scan reaches offset 7. -/
theorem C9_witness :
    simple_tokenizer sampleTU (0, 1) = Outcome.assertion_failure
    ∧ 1 ≤ ((sampleTU.tokenize 3 20).map token.ofRaw).length
    ∧ ((∃ r, get_extent 0 sampleTU sampleAliasDone = Outcome.value r
          ∧ sampleTU.tokenize r.1 r.2 = [])
        ∨ (probes_reported_end sampleAliasDone
            ∧ ∃ k, k ≤ 0
                ∧ sampleTU.tokenize (probe_offset sampleAliasDone.extentEnd k)
                    (get_next_location (probe_offset sampleAliasDone.extentEnd k)) = []))
    ∧ (tokenizer 3 sampleTU sampleMethodShort = Outcome.assertion_failure
        ∨ ∃ ts, tokenizer 3 sampleTU sampleMethodShort = Outcome.value ts ∧ 1 ≤ ts.length)
    ∧ tokenizer 0 sampleTU sampleAliasDone = Outcome.assertion_failure
    ∧ (get_extent 0 sampleTU sampleFunctionAtEnd = Outcome.assertion_failure
        ∧ tokenizer 0 sampleTU sampleFunctionAtEnd = Outcome.assertion_failure)
    ∧ (get_extent 7 parenTU sampleAliasUnterminated = Outcome.assertion_failure
        ∧ tokenizer 7 parenTU sampleAliasUnterminated = Outcome.assertion_failure)
    ∧ (get_extent 2 openTU sampleTypeParam = Outcome.assertion_failure
        ∧ tokenizer 2 openTU sampleTypeParam = Outcome.assertion_failure) :=
  ⟨((C9_assertion_and_nonempty sampleTU).1 (0, 1)).2 (by decide),
   ((C9_assertion_and_nonempty sampleTU).2.1 0 sampleFunctionDef
      ((sampleTU.tokenize 3 20).map token.ofRaw)
      (by
        simp only [tokenizer,
          show get_extent 0 sampleTU sampleFunctionDef = Outcome.value (3, 20) by decide,
          show simple_tokenizer sampleTU (3, 20) = Outcome.value (sampleTU.tokenize 3 20)
            by decide,
          emplace_tokens_map])).1,
   (C9_assertion_and_nonempty sampleTU).2.2.1 0 sampleAliasDone
      (by
        simp only [tokenizer,
          show get_extent 0 sampleTU sampleAliasDone = Outcome.value (3, 12) by decide,
          show simple_tokenizer sampleTU (3, 12) = Outcome.assertion_failure by decide]),
   (C9_assertion_and_nonempty sampleTU).2.2.2.1 3 sampleMethodShort 13 (by decide)
      (by decide) (by decide) (by decide),
   (C9_assertion_and_nonempty sampleTU).2.2.2.2.1 0 sampleAliasDone (3, 12) (by decide)
      (by decide),
   (C9_assertion_and_nonempty sampleTU).2.2.2.2.2.1 0 sampleFunctionAtEnd
      (Or.inl (Or.inl ⟨by decide, rfl⟩)) (by decide),
   (C9_assertion_and_nonempty parenTU).2.2.2.2.2.2.1 7 sampleAliasUnterminated 12
      (Or.inr ⟨by decide, rfl⟩) (by decide) (by decide)
      (by
        intro p h1 h2
        have h1 : 5 ≤ p := h1
        have hp : p = 5 ∨ p = 6 ∨ p = 7 ∨ p = 8 ∨ p = 9 ∨ p = 10 ∨ p = 11 := by omega
        rcases hp with rfl | rfl | rfl | rfl | rfl | rfl | rfl <;> decide)
      (by decide) (by decide),
   (C9_assertion_and_nonempty openTU).2.2.2.2.2.2.2 2 sampleTypeParam 7
      (by decide) rfl (by decide) (by decide) (by decide)
      (by
        intro j h1 h2
        have h1 : 5 < j := h1
        have hj : j = 6 := by omega
        subst hj
        exact ⟨by decide, by decide⟩)
      (by decide) (by decide)⟩

/-- C10: let `len` be the length of the file, an `unsigned` offset at which the
provider lexes nothing, and let the reported end `e` of the cursor lie in the file.
Then `get_extent` finishes, by returning or by the fatal assertion, with every loop
budget of at least `len - e` iterations, and with the same outcome as with the budget
`len - e`: each of its probing loops (the two scans for `;` and the parenthesis scan)
makes at most `len - e` one-unit steps. -/
theorem C10_probing_loops_bounded (fuel : Nat) (tu : CXTranslationUnit) (cur : CXCursor)
    (len : Nat) (h32 : len < 4294967296) (hend : cur.extentEnd ≤ len)
    (heof : tu.tokenize len (get_next_location len) = [])
    (hfuel : len - cur.extentEnd ≤ fuel) :
    get_extent fuel tu cur ≠ Outcome.out_of_fuel
    ∧ get_extent fuel tu cur = get_extent (len - cur.extentEnd) tu cur :=
  ⟨get_extent_bounded fuel tu cur len h32 hend heof hfuel,
   get_extent_mono (len - cur.extentEnd) fuel tu cur
     (get_extent_bounded (len - cur.extentEnd) tu cur len h32 hend heof (Nat.le_refl _))
     hfuel⟩

/-- Witness of C10: the second sample file ends at offset 12; the scan of the type alias
reported to end at 5, which never meets `;`, is over within 7 iterations. -/
theorem C10_witness :
    get_extent 9 parenTU sampleAliasUnterminated ≠ Outcome.out_of_fuel
    ∧ get_extent 9 parenTU sampleAliasUnterminated
        = get_extent (12 - sampleAliasUnterminated.extentEnd) parenTU sampleAliasUnterminated :=
  C10_probing_loops_bounded 9 parenTU sampleAliasUnterminated 12 (by decide) (by decide)
    (by decide) (by decide)

end Cppast
